import Mathlib

/-!
Verification of the Fyers LTP / ATM options margin calculator
(`main.py` – original version, `main_v2.py` – optimized version).

The Python code is shallowly embedded: prices (Python floats carrying
exact currency/strike values) are modelled as rationals, Python `int(...)`
truncation and `math.fmod` are modelled explicitly, `datetime` dates are a
`Date` structure with proleptic-Gregorian day arithmetic, dictionaries are
functions into `Option`, and fallible I/O (HTTP, CSV reading) is an
`Except`-valued input that the embedded functions consume.
-/

namespace Fyers

/-- Python `int(...)` applied to a float/rational: truncation toward zero. -/
def pyInt (q : ℚ) : ℤ := if 0 ≤ q then ⌊q⌋ else -⌊-q⌋

/-- Python `math.fmod a b`: `a - b * trunc (a / b)` (sign follows `a`). -/
def fmod (a b : ℚ) : ℚ := a - b * (pyInt (a / b) : ℚ)

/-- Zero-padded two-digit decimal rendering, as in `strftime "%y"` and `f"{d:02d}"`. -/
def pad2 (n : ℕ) : String := if n < 10 then "0" ++ toString n else toString n

/-- Python `str.upper()` (character-wise ASCII uppercasing, which is what it
does on the symbol names this program handles). -/
def pyUpper (s : String) : String := String.mk (s.data.map Char.toUpper)

/-- Uppercased `strftime "%b"` month abbreviation. -/
def monthAbbrev (m : ℕ) : String :=
  if m = 1 then "JAN" else if m = 2 then "FEB" else if m = 3 then "MAR"
  else if m = 4 then "APR" else if m = 5 then "MAY" else if m = 6 then "JUN"
  else if m = 7 then "JUL" else if m = 8 then "AUG" else if m = 9 then "SEP"
  else if m = 10 then "OCT" else if m = 11 then "NOV" else if m = 12 then "DEC"
  else ""

/-- The `fyers_month_code` table: `1`–`9` for January–September and
`O`, `N`, `D` for October–December. -/
def monthCode (m : ℕ) : String :=
  if 1 ≤ m ∧ m ≤ 9 then toString m
  else if m = 10 then "O" else if m = 11 then "N" else if m = 12 then "D"
  else ""

/-- Calendar date, modelling Python `datetime.date`. -/
structure Date where
  year : ℕ
  month : ℕ
  day : ℕ
deriving DecidableEq

/-- Gregorian leap-year rule. -/
def isLeap (y : ℕ) : Bool := (y % 4 == 0 && y % 100 != 0) || y % 400 == 0

/-- Number of days in a month (months outside 1–12 never arise for valid dates). -/
def daysInMonth (y m : ℕ) : ℕ :=
  if m = 2 then (if isLeap y then 29 else 28)
  else if m = 4 ∨ m = 6 ∨ m = 9 ∨ m = 11 then 30
  else 31

/-- A date that `datetime.date` would accept. -/
def Date.Valid (d : Date) : Prop :=
  1 ≤ d.year ∧ 1 ≤ d.month ∧ d.month ≤ 12 ∧ 1 ≤ d.day ∧ d.day ≤ daysInMonth d.year d.month

instance (d : Date) : Decidable d.Valid := by unfold Date.Valid; infer_instance

/-- Days of the year strictly before month `m`. -/
def daysBeforeMonth (y m : ℕ) : ℕ :=
  (if m = 1 then 0 else if m = 2 then 31 else if m = 3 then 59 else if m = 4 then 90
   else if m = 5 then 120 else if m = 6 then 151 else if m = 7 then 181
   else if m = 8 then 212 else if m = 9 then 243 else if m = 10 then 273
   else if m = 11 then 304 else 334)
  + (if 3 ≤ m ∧ isLeap y then 1 else 0)

/-- Proleptic-Gregorian ordinal, as Python `date.toordinal`
(`0001-01-01` has ordinal `1`). -/
def toOrdinal (d : Date) : ℕ :=
  365 * (d.year - 1) + ((d.year - 1) / 4 - (d.year - 1) / 100) + (d.year - 1) / 400
    + daysBeforeMonth d.year d.month + d.day

/-- Python `date.weekday()`: Monday is `0`, …, Thursday is `3`, …, Sunday is `6`.
`0001-01-01` was a Monday. -/
def Date.weekday (d : Date) : ℕ := (toOrdinal d + 6) % 7

/-- The successor date. -/
def nextDay (d : Date) : Date :=
  if d.day < daysInMonth d.year d.month then ⟨d.year, d.month, d.day + 1⟩
  else if d.month < 12 then ⟨d.year, d.month + 1, 1⟩
  else ⟨d.year + 1, 1, 1⟩

/-- Adding `n` days. -/
def addDays (d : Date) : ℕ → Date
  | 0 => d
  | n + 1 => addDays (nextDay d) n

/-- `now + relativedelta(weekday=TH(1))`: the next Thursday on or after `d`
(`d` itself if `d` is a Thursday). -/
def nextThursday (d : Date) : Date := addDays d ((3 + 7 - d.weekday) % 7)

/-- `now + relativedelta(day=31, weekday=TH(-1))`: the last Thursday of the
month of the given year/month. -/
def lastThursdayOfMonth (y m : ℕ) : Date :=
  let ld := daysInMonth y m
  let wd := Date.weekday ⟨y, m, ld⟩
  ⟨y, m, ld - (wd + 4) % 7⟩

-- Sanity anchors for the calendar model against the real Gregorian calendar.
example : toOrdinal ⟨2000, 1, 1⟩ = 730120 := by decide
example : Date.weekday ⟨2000, 1, 1⟩ = 5 := by decide
example : Date.weekday ⟨2024, 12, 26⟩ = 3 := by decide
example : nextThursday ⟨2024, 12, 27⟩ = ⟨2025, 1, 2⟩ := by decide
example : lastThursdayOfMonth 2024 12 = ⟨2024, 12, 26⟩ := by decide

/-- The code's monthly expiry format `now.strftime(f"{yy}%b").upper()`. -/
def monthlyCode (d : Date) : String := pad2 (d.year % 100) ++ monthAbbrev d.month

/-- `Utils.get_expiry_code` from `main_v2.py`. -/
def get_expiry_code (d : Date) (symbol : String) : String :=
  let yy := pad2 (d.year % 100)
  if pyUpper symbol ∈ (["NIFTY", "BANKNIFTY", "FINNIFTY", "MIDCPNIFTY"] : List String) then
    let next_thursday := nextThursday d
    let last_thursday := lastThursdayOfMonth d.year d.month
    if next_thursday = last_thursday then yy ++ monthAbbrev d.month
    else if pyUpper symbol = "NIFTY" then
      yy ++ monthCode next_thursday.month ++ pad2 next_thursday.day
    else yy ++ monthAbbrev d.month
  else yy ++ monthAbbrev d.month

/-- `get_expiry_code` from `main.py` (the original version): the weekly branch
covers `BANKNIFTY`, `STOCK` and `NIFTY`, and builds the weekly code from the
month of `now`, not of the next Thursday. -/
def get_expiry_code_py (d : Date) (index : String) : String :=
  let yy := pad2 (d.year % 100)
  if index = "BANKNIFTY" ∨ index = "STOCK" ∨ index = "NIFTY" then
    let next_thursday := nextThursday d
    let last_thursday := lastThursdayOfMonth d.year d.month
    if next_thursday = last_thursday then yy ++ monthAbbrev d.month
    else yy ++ monthCode d.month ++ pad2 next_thursday.day
  else yy ++ monthAbbrev d.month

/-- The claim's condition: the next Thursday on or after the current date is
the last Thursday of its (that Thursday's own) month. -/
def isLastThursdayOfItsMonth (d : Date) : Prop :=
  d = lastThursdayOfMonth d.year d.month

instance (d : Date) : Decidable (isLastThursdayOfItsMonth d) := by
  unfold isLastThursdayOfItsMonth; infer_instance

/-- `Utils.get_default_intervals` from `main_v2.py`, as a finite map. -/
def get_default_intervals : String → Option ℚ := fun s =>
  if s = "NIFTY" then some 50
  else if s = "BANKNIFTY" then some 100
  else if s = "FINNIFTY" then some 50
  else if s = "MIDCPNIFTY" then some 25
  else if s = "NIFTY NEXT 50" then some 100
  else if s = "SENSEX" then some 100
  else none

/-- One `if symbol not in strike_intervals or step_value < strike_intervals[symbol]`
update of the interval dictionary in `Utils.load_strike_intervals_from_file`. -/
def update_interval (m : String → Option ℚ) (row : String × ℚ) : String → Option ℚ :=
  fun s =>
    if s = row.1 then
      match m row.1 with
      | none => some row.2
      | some v => if row.2 < v then some row.2 else some v
    else m s

/-- The row loop of `Utils.load_strike_intervals_from_file`, starting from the
empty dictionary. -/
def build_strike_intervals (rows : List (String × ℚ)) : String → Option ℚ :=
  rows.foldl update_interval (fun _ => none)

/-- `Utils.load_strike_intervals_from_file`: `fileExists` models
`os.path.exists(filename)`, and `parsed` is what the (out-of-scope) CSV layer
produced — an exception, or the `(Symbol, Gap)` rows. -/
def load_strike_intervals_from_file (fileExists : Bool)
    (parsed : Except String (List (String × ℚ))) : String → Option ℚ :=
  if !fileExists then get_default_intervals
  else
    match parsed with
    | Except.error _ => get_default_intervals
    | Except.ok rows => build_strike_intervals rows

/-- The price-based fallback interval in `Utils.calculate_atm_strike`. -/
def price_based_interval (ltp : ℚ) : ℚ :=
  if ltp < 500 then 5
  else if ltp < 1000 then 10
  else if ltp < 2000 then 20
  else if ltp < 5000 then 50
  else 100

/-- `Utils.calculate_atm_strike` from `main_v2.py`:
`int(math.ceil(ltp / interval) * interval)`, where a missing or zero
(`if not interval`) entry falls back to the price-based interval. -/
def calculate_atm_strike (ltp : ℚ) (symbol : String)
    (intervals : String → Option ℚ) : ℤ :=
  let interval :=
    match intervals (pyUpper symbol) with
    | some v => if v = 0 then price_based_interval ltp else v
    | none => price_based_interval ltp
  pyInt ((⌈ltp / interval⌉ : ℚ) * interval)

/-- `calculate_atm_strike` from `main.py` (the original version): NIFTY and
BANKNIFTY round to the nearest 50/100 via `math.fmod`; other symbols choose
the closer of `floor` and `ceil` multiples of the loaded interval
(default 50). -/
def calculate_atm_strike_py (ltp : ℚ) (symbol : String)
    (intervals : String → Option ℚ) : ℤ :=
  let interval := (intervals symbol).getD 50
  if symbol = "NIFTY" then
    let val2 := fmod ltp 50
    let val3 : ℚ := if 25 ≤ val2 then 50 else 0
    pyInt (ltp - val2 + val3)
  else if symbol = "BANKNIFTY" then
    let val2 := fmod ltp 100
    let val3 : ℚ := if 50 ≤ val2 then 100 else 0
    pyInt (ltp - val2 + val3)
  else
    let val1 := ((⌊ltp / interval⌋ : ℤ) : ℚ) * interval
    let val2 := ((⌈ltp / interval⌉ : ℤ) : ℚ) * interval
    pyInt (if |ltp - val1| < |ltp - val2| then val1 else val2)

/-- `Utils.convert_symbol_to_fyers_format` from `main_v2.py`. -/
def convert_symbol_to_fyers_format (symbol : String) : String :=
  if pyUpper symbol = "NIFTY" then "NSE:NIFTY50-INDEX"
  else if pyUpper symbol = "BANKNIFTY" then "NSE:NIFTYBANK-INDEX"
  else if pyUpper symbol = "FINNIFTY" then "NSE:FINNIFTY-INDEX"
  else if pyUpper symbol = "MIDCPNIFTY" then "NSE:MIDCPNIFTY-INDEX"
  else if pyUpper symbol = "NIFTY NEXT 50" then "NSE:NIFTYNXT50-INDEX"
  else if pyUpper symbol = "SENSEX" then "BSE:SENSEX-INDEX"
  else "NSE:" ++ pyUpper symbol ++ "-EQ"

/-- `Utils.create_option_symbol` from `main_v2.py`. -/
def create_option_symbol (today : Date) (base_symbol : String) (strike : ℤ)
    (option_type : String) : String :=
  let expiry_code := get_expiry_code today base_symbol
  let option_base :=
    if pyUpper base_symbol = "NIFTY" then "NIFTY"
    else if pyUpper base_symbol = "BANKNIFTY" then "BANKNIFTY"
    else if pyUpper base_symbol = "FINNIFTY" then "FINNIFTY"
    else if pyUpper base_symbol = "MIDCPNIFTY" then "MIDCPNIFTY"
    else if pyUpper base_symbol = "NIFTY NEXT 50" then "NIFTYNXT50"
    else pyUpper base_symbol
  "NSE:" ++ option_base ++ expiry_code ++ toString strike ++ option_type

/-- One entry of the quote response's `d` list: its `v` dict with the `lp`
field (absent key modelled as `none`). -/
structure QuoteEntry where
  lp : Option ℚ
deriving DecidableEq

/-- A decoded quote response: the `s` status string and the `d` list. -/
structure QuoteResponse where
  s : String
  d : List QuoteEntry
deriving DecidableEq

/-- `FyersAPI.get_ltp` from `main_v2.py`, applied to an HTTP/SDK outcome: an
exception (caught, sentinel `0.0`) or a decoded response. -/
def get_ltp (resp : Except String QuoteResponse) : ℚ :=
  match resp with
  | Except.error _ => 0
  | Except.ok r =>
    if r.s = "ok" ∧ r.d ≠ [] then
      match r.d with
      | [] => 0
      | e :: _ => let ltp := e.lp.getD 0 ; if ltp ≠ 0 then ltp else 0
    else 0

/-- The `print` in the `except` branch of `FyersAPI.get_ltp`. -/
def get_ltp_log (resp : Except String QuoteResponse) (symbol : String) : List String :=
  match resp with
  | Except.error e => ["Error fetching LTP for " ++ symbol ++ ": " ++ e]
  | Except.ok _ => []

/-- `FyersAPI.calculate_margin` from `main_v2.py`. -/
def calculate_margin (ltp : ℚ) (lot_size : ℤ) : ℚ := ltp * lot_size

/-- The per-symbol result dict built by `LTPMarginCalculator.process_symbol`. -/
structure SymbolResult where
  symbol : String
  ltp : ℚ
  atm_strike : ℤ
  ce_symbol : String
  ce_ltp : ℚ
  ce_margin : ℚ
  pe_symbol : String
  pe_ltp : ℚ
  pe_margin : ℚ
  lot_size : ℤ
deriving DecidableEq

/-- `LTPMarginCalculator.process_symbol` from `main_v2.py`. `env` maps a Fyers
symbol to the HTTP outcome of quoting it. -/
def process_symbol (env : String → Except String QuoteResponse) (today : Date)
    (intervals : String → Option ℚ) (symbol : String) (lot_size : ℤ) :
    Option SymbolResult :=
  let fyers_symbol := convert_symbol_to_fyers_format symbol
  let ltp := get_ltp (env fyers_symbol)
  if ltp ≤ 0 then none
  else
    let atm_strike := calculate_atm_strike ltp symbol intervals
    let ce_symbol := create_option_symbol today symbol atm_strike "CE"
    let pe_symbol := create_option_symbol today symbol atm_strike "PE"
    let ce_ltp := get_ltp (env ce_symbol)
    let pe_ltp := get_ltp (env pe_symbol)
    let ce_margin := if 0 < ce_ltp then calculate_margin ce_ltp lot_size else 0
    let pe_margin := if 0 < pe_ltp then calculate_margin pe_ltp lot_size else 0
    some ⟨symbol, ltp, atm_strike, ce_symbol, ce_ltp, ce_margin,
          pe_symbol, pe_ltp, pe_margin, lot_size⟩

/-- `LTPMarginCalculator.read_symbols_from_csv` from `main_v2.py`:
missing file or a CSV/parsing exception yields the empty list. -/
def read_symbols_from_csv (fileExists : Bool)
    (parsed : Except String (List (String × ℤ))) : List (String × ℤ) :=
  if !fileExists then []
  else
    match parsed with
    | Except.error _ => []
    | Except.ok rows => rows

/-- `LTPMarginCalculator.filter_by_margin` from `main_v2.py` (the loop in
`main.py` lines 416–425 is the same test written without chaining). -/
def filter_by_margin (margin_filter : ℚ) (results : List SymbolResult) :
    List SymbolResult :=
  results.foldl
    (fun filtered result =>
      if (0 < result.ce_margin ∧ result.ce_margin ≤ margin_filter) ∨
         (0 < result.pe_margin ∧ result.pe_margin ≤ margin_filter)
      then filtered ++ [result]
      else filtered)
    []

/-- The symbol-processing loop of `LTPMarginCalculator.run` from `main_v2.py`:
results of symbols whose processing returned `None` are skipped and the loop
continues. -/
def run_results (env : String → Except String QuoteResponse) (today : Date)
    (intervals : String → Option ℚ) (symbols : List (String × ℤ)) :
    List SymbolResult :=
  symbols.foldl
    (fun all_results p =>
      match process_symbol env today intervals p.1 p.2 with
      | some result => all_results ++ [result]
      | none => all_results)
    []

/-- "Nearest valid strike": `k` is a multiple of the interval `i` and no other
multiple of `i` is strictly closer to the LTP (the claim's property for the
ATM strike calculator). -/
def NearestMult (i ltp : ℚ) (k : ℤ) : Prop :=
  (∃ m : ℤ, (k : ℚ) = m * i) ∧ ∀ m : ℤ, |ltp - (k : ℚ)| ≤ |ltp - (m : ℚ) * i|

/-! ### Arithmetic helper lemmas -/

theorem pyInt_intCast (z : ℤ) : pyInt ((z : ℚ)) = z := by
  unfold pyInt
  split
  · exact Int.floor_intCast z
  · rw [← Int.cast_neg, Int.floor_intCast]; omega

theorem pyInt_eq_floor (q : ℚ) (h : 0 ≤ q) : pyInt q = ⌊q⌋ := if_pos h

theorem fmod_eq_sub_floor (a b : ℚ) (ha : 0 ≤ a) (hb : 0 < b) :
    fmod a b = a - b * (⌊a / b⌋ : ℚ) := by
  unfold fmod
  rw [pyInt_eq_floor _ (div_nonneg ha hb.le)]

theorem dist_mult_lower (i ltp : ℚ) (hi : 0 < i) (m : ℤ) :
    min (ltp - (⌊ltp / i⌋ : ℚ) * i) (((⌊ltp / i⌋ : ℚ) + 1) * i - ltp)
      ≤ |ltp - (m : ℚ) * i| := by
  have hfl : (⌊ltp / i⌋ : ℚ) * i ≤ ltp := by
    have h1 : (⌊ltp / i⌋ : ℚ) ≤ ltp / i := Int.floor_le _
    have h2 : (⌊ltp / i⌋ : ℚ) * i ≤ (ltp / i) * i := mul_le_mul_of_nonneg_right h1 hi.le
    rwa [div_mul_cancel₀ _ (ne_of_gt hi)] at h2
  rcases le_or_lt ((m : ℚ) * i) ltp with h | h
  · have hm : m ≤ ⌊ltp / i⌋ := Int.le_floor.mpr ((le_div_iff₀ hi).mpr h)
    have hmq : (m : ℚ) ≤ (⌊ltp / i⌋ : ℚ) := by exact_mod_cast hm
    have h3 : (m : ℚ) * i ≤ (⌊ltp / i⌋ : ℚ) * i := mul_le_mul_of_nonneg_right hmq hi.le
    have habs : |ltp - (m : ℚ) * i| = ltp - (m : ℚ) * i := abs_of_nonneg (by linarith)
    rw [habs]
    refine le_trans (min_le_left _ _) (by linarith)
  · have hm : ⌊ltp / i⌋ + 1 ≤ m := by
      have : ⌊ltp / i⌋ < m := Int.floor_lt.mpr ((div_lt_iff₀ hi).mpr h)
      omega
    have hmq : (⌊ltp / i⌋ : ℚ) + 1 ≤ (m : ℚ) := by exact_mod_cast hm
    have h3 : ((⌊ltp / i⌋ : ℚ) + 1) * i ≤ (m : ℚ) * i := mul_le_mul_of_nonneg_right hmq hi.le
    have habs : |ltp - (m : ℚ) * i| = (m : ℚ) * i - ltp := by
      rw [abs_of_nonpos (by linarith)]; ring
    rw [habs]
    refine le_trans (min_le_right _ _) (by linarith)

theorem nearest_halfround (c half : ℚ) (cz : ℤ) (hcz : (cz : ℚ) = c) (hc : 0 < c)
    (h2 : half + half = c) (ltp : ℚ) (hl : 0 ≤ ltp) :
    NearestMult c ltp
      (pyInt (ltp - fmod ltp c + (if half ≤ fmod ltp c then c else 0))) := by
  have hr : fmod ltp c = ltp - c * (⌊ltp / c⌋ : ℚ) := fmod_eq_sub_floor ltp c hl hc
  set f : ℤ := ⌊ltp / c⌋ with hf
  have hfl : (f : ℚ) * c ≤ ltp := by
    have h1 : (f : ℚ) ≤ ltp / c := Int.floor_le _
    have h3 : (f : ℚ) * c ≤ (ltp / c) * c := mul_le_mul_of_nonneg_right h1 hc.le
    rwa [div_mul_cancel₀ _ (ne_of_gt hc)] at h3
  have hfr : ltp < ((f : ℚ) + 1) * c := by
    have h1 : ltp / c < (f : ℚ) + 1 := Int.lt_floor_add_one _
    have := (div_lt_iff₀ hc).mp h1
    linarith
  have hrnn : 0 ≤ fmod ltp c := by rw [hr]; linarith
  have hrlt : fmod ltp c < c := by rw [hr]; linarith
  by_cases hcase : half ≤ fmod ltp c
  · -- round up to (f + 1) * c
    have hval : ltp - fmod ltp c + (if half ≤ fmod ltp c then c else 0)
        = (((f + 1) * cz : ℤ) : ℚ) := by
      rw [if_pos hcase, hr]; push_cast [hcz]; ring
    rw [hval, pyInt_intCast]
    constructor
    · exact ⟨f + 1, by push_cast [hcz]; ring⟩
    · intro m
      have hdist : |ltp - (((f + 1) * cz : ℤ) : ℚ)| = ((f : ℚ) + 1) * c - ltp := by
        rw [abs_of_nonpos (by push_cast [hcz]; nlinarith)]
        push_cast [hcz]; ring
      rw [hdist]
      refine le_trans (le_min ?_ (le_refl _)) (dist_mult_lower c ltp hc m)
      have : ltp - (f : ℚ) * c = fmod ltp c := by rw [hr]; ring
      rw [← hf, this]
      linarith
  · -- keep f * c
    have hval : ltp - fmod ltp c + (if half ≤ fmod ltp c then c else 0)
        = ((f * cz : ℤ) : ℚ) := by
      rw [if_neg hcase, hr]; push_cast [hcz]; ring
    rw [hval, pyInt_intCast]
    constructor
    · exact ⟨f, by push_cast [hcz]; ring⟩
    · intro m
      push_neg at hcase
      have hdist : |ltp - ((f * cz : ℤ) : ℚ)| = ltp - (f : ℚ) * c := by
        rw [abs_of_nonneg (by push_cast [hcz]; nlinarith)]
        push_cast [hcz]; ring
      rw [hdist]
      refine le_trans (le_min (le_refl _) ?_) (dist_mult_lower c ltp hc m)
      have : ltp - (f : ℚ) * c = fmod ltp c := by rw [hr]; ring
      rw [← hf, this]
      linarith

theorem nearest_floor_ceil (c : ℚ) (cz : ℤ) (hcz : (cz : ℚ) = c) (hc : 0 < c) (ltp : ℚ) :
    NearestMult c ltp
      (pyInt (if |ltp - ((⌊ltp / c⌋ : ℤ) : ℚ) * c| < |ltp - ((⌈ltp / c⌉ : ℤ) : ℚ) * c|
              then ((⌊ltp / c⌋ : ℤ) : ℚ) * c else ((⌈ltp / c⌉ : ℤ) : ℚ) * c)) := by
  set f : ℤ := ⌊ltp / c⌋ with hf
  set g : ℤ := ⌈ltp / c⌉ with hg
  have hfl : (f : ℚ) * c ≤ ltp := by
    have h1 : (f : ℚ) ≤ ltp / c := Int.floor_le _
    have h3 : (f : ℚ) * c ≤ (ltp / c) * c := mul_le_mul_of_nonneg_right h1 hc.le
    rwa [div_mul_cancel₀ _ (ne_of_gt hc)] at h3
  have hgl : ltp ≤ (g : ℚ) * c := by
    have h1 : ltp / c ≤ (g : ℚ) := Int.le_ceil _
    have h3 : (ltp / c) * c ≤ (g : ℚ) * c := mul_le_mul_of_nonneg_right h1 hc.le
    rwa [div_mul_cancel₀ _ (ne_of_gt hc)] at h3
  have hgf : g ≤ f + 1 := Int.ceil_le_floor_add_one _
  have hd1 : |ltp - (f : ℚ) * c| = ltp - (f : ℚ) * c := abs_of_nonneg (by linarith)
  have hd2 : |ltp - (g : ℚ) * c| = (g : ℚ) * c - ltp := by
    rw [abs_of_nonpos (by linarith)]; ring
  have hmin : ∀ m : ℤ,
      min (ltp - (f : ℚ) * c) (((f : ℚ) + 1) * c - ltp) ≤ |ltp - (m : ℚ) * c| := by
    intro m
    have := dist_mult_lower c ltp hc m
    rwa [← hf] at this
  by_cases hcmp : |ltp - (f : ℚ) * c| < |ltp - (g : ℚ) * c|
  · rw [if_pos hcmp]
    have hval : (f : ℚ) * c = ((f * cz : ℤ) : ℚ) := by push_cast [hcz]; ring
    rw [hval, pyInt_intCast]
    refine ⟨⟨f, by push_cast [hcz]; ring⟩, ?_⟩
    intro m
    rw [← hval, hd1]
    refine le_trans (le_min (le_refl _) ?_) (hmin m)
    -- d1 < d2 and g ≤ f + 1 give d1 ≤ (f+1) c - ltp
    rw [hd1, hd2] at hcmp
    have hgq : (g : ℚ) ≤ (f : ℚ) + 1 := by exact_mod_cast hgf
    have h3 : (g : ℚ) * c ≤ ((f : ℚ) + 1) * c := mul_le_mul_of_nonneg_right hgq hc.le
    linarith
  · rw [if_neg hcmp]
    have hval : (g : ℚ) * c = ((g * cz : ℤ) : ℚ) := by push_cast [hcz]; ring
    rw [hval, pyInt_intCast]
    refine ⟨⟨g, by push_cast [hcz]; ring⟩, ?_⟩
    intro m
    push_neg at hcmp
    rw [← hval, hd2]
    rcases eq_or_lt_of_le (Int.floor_le_ceil (ltp / c)) with hfg | hfg
    · -- ltp is an exact multiple: g = f and the distance is 0
      have hfgz : f = g := by rw [hf, hg]; exact hfg
      have hq : (g : ℚ) * c - ltp = 0 := by
        have h4 := hfl
        rw [hfgz] at h4
        linarith
      rw [hq]
      exact abs_nonneg _
    · have hgf1 : g = f + 1 := by
        have h5 : f < g := by rw [hf, hg]; exact hfg
        omega
      refine le_trans (le_min ?_ ?_) (hmin m)
      · rw [hd1, hd2] at hcmp; linarith
      · rw [hgf1]; push_cast; linarith

/-! ### Calendar lemmas -/

theorem daysInMonth_ge (y m : ℕ) : 28 ≤ daysInMonth y m := by
  unfold daysInMonth
  split
  · split <;> omega
  · split <;> omega

theorem daysInMonth_le (y m : ℕ) : daysInMonth y m ≤ 31 := by
  unfold daysInMonth
  split
  · split <;> omega
  · split <;> omega

theorem nextDay_valid (d : Date) (hv : d.Valid) : (nextDay d).Valid := by
  obtain ⟨h1, h2, h3, h4, h5⟩ := hv
  unfold nextDay
  by_cases hlt : d.day < daysInMonth d.year d.month
  · rw [if_pos hlt]
    show 1 ≤ d.year ∧ 1 ≤ d.month ∧ d.month ≤ 12 ∧ 1 ≤ d.day + 1 ∧
      d.day + 1 ≤ daysInMonth d.year d.month
    exact ⟨h1, h2, h3, by omega, by omega⟩
  · by_cases hm12 : d.month < 12
    · rw [if_neg hlt, if_pos hm12]
      show 1 ≤ d.year ∧ 1 ≤ d.month + 1 ∧ d.month + 1 ≤ 12 ∧ 1 ≤ 1 ∧
        1 ≤ daysInMonth d.year (d.month + 1)
      have := daysInMonth_ge d.year (d.month + 1)
      exact ⟨h1, by omega, by omega, le_refl 1, by omega⟩
    · rw [if_neg hlt, if_neg hm12]
      show 1 ≤ d.year + 1 ∧ 1 ≤ 1 ∧ 1 ≤ 12 ∧ 1 ≤ 1 ∧ 1 ≤ daysInMonth (d.year + 1) 1
      have := daysInMonth_ge (d.year + 1) 1
      exact ⟨by omega, le_refl 1, by omega, le_refl 1, by omega⟩

theorem addDays_spec (k : ℕ) (hk : k ≤ 6) : ∀ d : Date, d.Valid →
    (addDays d k).Valid ∧
      (((addDays d k).year = d.year ∧ (addDays d k).month = d.month ∧
          (addDays d k).day = d.day + k) ∨ (addDays d k).day ≤ k) := by
  induction k with
  | zero =>
    intro d hv
    exact ⟨hv, Or.inl ⟨rfl, rfl, rfl⟩⟩
  | succ n ih =>
    intro d hv
    have hn : n ≤ 6 := by omega
    have hnv : (nextDay d).Valid := nextDay_valid d hv
    have hstep : addDays d (n + 1) = addDays (nextDay d) n := rfl
    obtain ⟨hval, hcase⟩ := ih hn (nextDay d) hnv
    rw [hstep]
    refine ⟨hval, ?_⟩
    by_cases hroll : d.day < daysInMonth d.year d.month
    · have hy' : (nextDay d).year = d.year := by unfold nextDay; rw [if_pos hroll]
      have hm' : (nextDay d).month = d.month := by unfold nextDay; rw [if_pos hroll]
      have hd' : (nextDay d).day = d.day + 1 := by unfold nextDay; rw [if_pos hroll]
      rcases hcase with ⟨hy, hm, hd⟩ | hd
      · left
        refine ⟨hy.trans hy', hm.trans hm', ?_⟩
        rw [hd, hd']
        omega
      · right
        omega
    · have hd1 : (nextDay d).day = 1 := by
        unfold nextDay
        rw [if_neg hroll]
        by_cases hm12 : d.month < 12
        · rw [if_pos hm12]
        · rw [if_neg hm12]
      rcases hcase with ⟨-, -, hd⟩ | hd
      · right
        rw [hd, hd1]
        omega
      · right
        omega

theorem lastThursdayOfMonth_year (y m : ℕ) : (lastThursdayOfMonth y m).year = y := rfl

theorem lastThursdayOfMonth_month (y m : ℕ) : (lastThursdayOfMonth y m).month = m := rfl

theorem lastThursdayOfMonth_day_ge (y m : ℕ) : 22 ≤ (lastThursdayOfMonth y m).day := by
  have h1 := daysInMonth_ge y m
  have h2 : (Date.weekday ⟨y, m, daysInMonth y m⟩ + 4) % 7 < 7 := Nat.mod_lt _ (by omega)
  show 22 ≤ daysInMonth y m - (Date.weekday ⟨y, m, daysInMonth y m⟩ + 4) % 7
  omega

theorem nextThursday_offset_le (d : Date) : (3 + 7 - d.weekday) % 7 ≤ 6 := by
  have : (3 + 7 - d.weekday) % 7 < 7 := Nat.mod_lt _ (by omega)
  omega

theorem nextThursday_valid (d : Date) (hv : d.Valid) : (nextThursday d).Valid :=
  (addDays_spec _ (nextThursday_offset_le d) d hv).1

/-- The code's comparison `next_thursday.date() == last_thursday.date()`
(the last Thursday of the *current* month) agrees with the claim's condition
(the next Thursday is the last Thursday of *its own* month). -/
theorem cond_code_iff_spec (d : Date) (hv : d.Valid) :
    nextThursday d = lastThursdayOfMonth d.year d.month ↔
      isLastThursdayOfItsMonth (nextThursday d) := by
  obtain ⟨-, hcase⟩ := addDays_spec _ (nextThursday_offset_le d) d hv
  unfold isLastThursdayOfItsMonth
  rcases hcase with ⟨hy, hm, -⟩ | hd
  · rw [show (nextThursday d).year = d.year from hy,
        show (nextThursday d).month = d.month from hm]
  · have hd6 : (nextThursday d).day ≤ 6 :=
      le_trans hd (nextThursday_offset_le d)
    constructor
    · intro h
      exfalso
      have := congrArg Date.day h
      have h22 := lastThursdayOfMonth_day_ge d.year d.month
      omega
    · intro h
      exfalso
      have := congrArg Date.day h
      have h22 := lastThursdayOfMonth_day_ge (nextThursday d).year (nextThursday d).month
      omega

/-! ### String lemmas -/

theorem string_append_left_cancel (x : String) {a b : String}
    (h : x ++ a = x ++ b) : a = b := by
  cases x with
  | mk xd =>
    cases a with
    | mk ad =>
      cases b with
      | mk bd =>
        have hd : xd ++ ad = xd ++ bd := congrArg String.data h
        exact congrArg String.mk (List.append_cancel_left hd)

/-- No uppercased month abbreviation coincides with a weekly
`month-code ++ padded-day` string. -/
theorem monthAbbrev_ne_weekly : ∀ ma < 13, ∀ mc < 13, ∀ dd < 32,
    monthAbbrev ma ≠ monthCode mc ++ pad2 dd := by decide

/-! ### List/fold helper lemmas -/

/-- The appending loop of `filter_by_margin` is a `List.filter`. -/
theorem filter_by_margin_foldl (t : ℚ) (rs : List SymbolResult) :
    ∀ acc : List SymbolResult,
      rs.foldl
        (fun filtered result =>
          if (0 < result.ce_margin ∧ result.ce_margin ≤ t) ∨
             (0 < result.pe_margin ∧ result.pe_margin ≤ t)
          then filtered ++ [result]
          else filtered)
        acc
      = acc ++ rs.filter
          (fun result =>
            decide ((0 < result.ce_margin ∧ result.ce_margin ≤ t) ∨
                    (0 < result.pe_margin ∧ result.pe_margin ≤ t))) := by
  induction rs with
  | nil => intro acc; simp
  | cons r rest ih =>
    intro acc
    by_cases hp : (0 < r.ce_margin ∧ r.ce_margin ≤ t) ∨ (0 < r.pe_margin ∧ r.pe_margin ≤ t)
    · rw [List.foldl_cons, if_pos hp, ih (acc ++ [r]), List.filter_cons, decide_eq_true hp]
      simp
    · rw [List.foldl_cons, if_neg hp, ih acc, List.filter_cons, decide_eq_false hp]
      simp

theorem filter_by_margin_eq_filter (t : ℚ) (rs : List SymbolResult) :
    filter_by_margin t rs
      = rs.filter
          (fun result =>
            decide ((0 < result.ce_margin ∧ result.ce_margin ≤ t) ∨
                    (0 < result.pe_margin ∧ result.pe_margin ≤ t))) := by
  unfold filter_by_margin
  rw [filter_by_margin_foldl t rs []]
  rfl

/-- The result-accumulating loop of `run` is a fold that ignores `none`s. -/
theorem run_results_append (env : String → Except String QuoteResponse) (today : Date)
    (intervals : String → Option ℚ) (l₁ l₂ : List (String × ℤ)) :
    ∀ acc : List SymbolResult,
      (l₁ ++ l₂).foldl
        (fun all_results p =>
          match process_symbol env today intervals p.1 p.2 with
          | some result => all_results ++ [result]
          | none => all_results)
        acc
      = l₂.foldl
          (fun all_results p =>
            match process_symbol env today intervals p.1 p.2 with
            | some result => all_results ++ [result]
            | none => all_results)
          (l₁.foldl
            (fun all_results p =>
              match process_symbol env today intervals p.1 p.2 with
              | some result => all_results ++ [result]
              | none => all_results)
            acc) := by
  intro acc
  exact List.foldl_append _ _ _ _

/-- Invariant of the dictionary-building loop in
`Utils.load_strike_intervals_from_file`, for an arbitrary starting map. -/
theorem build_intervals_aux (rows : List (String × ℚ)) :
    ∀ (m : String → Option ℚ) (s : String),
      (rows.foldl update_interval m s = none ↔
        (m s = none ∧ ∀ g, (s, g) ∉ rows)) ∧
      (∀ v, rows.foldl update_interval m s = some v →
        ((m s = some v ∨ (s, v) ∈ rows) ∧ (∀ g, (s, g) ∈ rows → v ≤ g) ∧
          (∀ w, m s = some w → v ≤ w))) := by
  induction rows with
  | nil =>
    intro m s
    simp only [List.foldl_nil]
    refine ⟨by simp, ?_⟩
    intro v hv
    refine ⟨Or.inl hv, by simp, ?_⟩
    intro w hw
    rw [hv] at hw
    exact le_of_eq (Option.some.inj hw)
  | cons r rest ih =>
    obtain ⟨a, b⟩ := r
    intro m s
    have hfold : ((a, b) :: rest).foldl update_interval m
        = rest.foldl update_interval (update_interval m (a, b)) := rfl
    rw [hfold]
    obtain ⟨ih1, ih2⟩ := ih (update_interval m (a, b)) s
    by_cases hs : s = a
    · cases hm : m a with
      | none =>
        have hupd : update_interval m (a, b) s = some b := by
          unfold update_interval
          dsimp only
          rw [if_pos hs, hm]
        constructor
        · constructor
          · intro h
            obtain ⟨hn, -⟩ := ih1.mp h
            rw [hupd] at hn
            exact absurd hn (by simp)
          · rintro ⟨-, hmem⟩
            have hb := hmem b
            rw [hs] at hb
            exact absurd (List.mem_cons_self (a, b) rest) hb
        · intro v hv
          obtain ⟨hd, hbound, hmono⟩ := ih2 v hv
          refine ⟨?_, ?_, ?_⟩
          · rcases hd with h | h
            · rw [hupd] at h
              have hv2 : v = b := (Option.some.inj h).symm
              right
              rw [hv2, hs]
              exact List.mem_cons_self (a, b) rest
            · exact Or.inr (List.mem_cons_of_mem _ h)
          · intro g hg
            rcases List.mem_cons.mp hg with h | h
            · have hg2 : g = b := by
                simp only [Prod.mk.injEq] at h
                exact h.2
              rw [hg2]
              exact hmono b hupd
            · exact hbound g h
          · intro w hw
            rw [hs, hm] at hw
            exact absurd hw (by simp)
      | some u =>
        have hupd : update_interval m (a, b) s = some (if b < u then b else u) := by
          unfold update_interval
          dsimp only
          rw [if_pos hs, hm]
          show (if b < u then some b else some u) = some (if b < u then b else u)
          split
          next h => rfl
          next h => rfl
        have hu1 : (if b < u then b else u) ≤ u := by
          split
          next h => exact le_of_lt h
          next h => exact le_refl u
        have hu2 : (if b < u then b else u) ≤ b := by
          split
          next h => exact le_refl b
          next h => exact not_lt.mp h
        have hu3 : (if b < u then b else u) = u ∨ (if b < u then b else u) = b := by
          split
          next h => exact Or.inr rfl
          next h => exact Or.inl rfl
        constructor
        · constructor
          · intro h
            obtain ⟨hn, -⟩ := ih1.mp h
            rw [hupd] at hn
            exact absurd hn (by simp)
          · rintro ⟨hn, -⟩
            rw [hs, hm] at hn
            exact absurd hn (by simp)
        · intro v hv
          obtain ⟨hd, hbound, hmono⟩ := ih2 v hv
          have hvu : v ≤ (if b < u then b else u) := hmono _ hupd
          refine ⟨?_, ?_, ?_⟩
          · rcases hd with h | h
            · rw [hupd] at h
              have heq : (if b < u then b else u) = v := Option.some.inj h
              rcases hu3 with h4 | h4
              · left
                rw [hs, hm]
                exact congrArg some (by rw [← h4, heq])
              · right
                have hv2 : v = b := by rw [← heq, h4]
                rw [hv2, hs]
                exact List.mem_cons_self (a, b) rest
            · exact Or.inr (List.mem_cons_of_mem _ h)
          · intro g hg
            rcases List.mem_cons.mp hg with h | h
            · have hg2 : g = b := by
                simp only [Prod.mk.injEq] at h
                exact h.2
              rw [hg2]
              exact le_trans hvu hu2
            · exact hbound g h
          · intro w hw
            rw [hs, hm] at hw
            rw [← Option.some.inj hw]
            exact le_trans hvu hu1
    · have hupd : update_interval m (a, b) s = m s := by
        unfold update_interval
        dsimp only
        rw [if_neg hs]
      constructor
      · rw [ih1, hupd]
        constructor
        · rintro ⟨hn, hmem⟩
          refine ⟨hn, ?_⟩
          intro g hg
          rcases List.mem_cons.mp hg with h | h
          · have hsa : s = a := by
              simp only [Prod.mk.injEq] at h
              exact h.1
            exact hs hsa
          · exact hmem g h
        · rintro ⟨hn, hmem⟩
          exact ⟨hn, fun g hg => hmem g (List.mem_cons_of_mem _ hg)⟩
      · intro v hv
        obtain ⟨hd, hbound, hmono⟩ := ih2 v hv
        refine ⟨?_, ?_, ?_⟩
        · rcases hd with h | h
          · rw [hupd] at h
            exact Or.inl h
          · exact Or.inr (List.mem_cons_of_mem _ h)
        · intro g hg
          rcases List.mem_cons.mp hg with h | h
          · have hsa : s = a := by
              simp only [Prod.mk.injEq] at h
              exact h.1
            exact absurd hsa hs
          · exact hbound g h
        · intro w hw
          rw [← hupd] at hw
          exact hmono w hw

/-- Environment used to exercise `process_symbol`: the underlying index quote
succeeds with LTP 100, every other quote request fails. -/
def c2env : String → Except String QuoteResponse := fun s =>
  if s = "NSE:NIFTY50-INDEX" then Except.ok ⟨"ok", [⟨some 100⟩]⟩
  else Except.error "http error"

/-- The result `process_symbol` produces under `c2env` for NIFTY, lot size 75. -/
def c2result : SymbolResult :=
  ⟨"NIFTY", 100, 100, create_option_symbol ⟨2025, 1, 8⟩ "NIFTY" 100 "CE", 0, 0,
   create_option_symbol ⟨2025, 1, 8⟩ "NIFTY" 100 "PE", 0, 0, 75⟩

/-! ### Claim theorems -/

/-- Claim C2: in the optimized path, `calculate_margin ltp lot_size` is exactly
`ltp * lot_size`, and `process_symbol` assigns margin `0` to a leg whose
contract LTP is not positive (and `ltp * lot_size` to a leg with positive LTP). -/
theorem C2_margin_price_times_lot :
    (∀ (ltp : ℚ) (lot_size : ℤ), calculate_margin ltp lot_size = ltp * lot_size) ∧
    (∀ (env : String → Except String QuoteResponse) (today : Date)
        (intervals : String → Option ℚ) (symbol : String) (lot_size : ℤ)
        (r : SymbolResult),
      process_symbol env today intervals symbol lot_size = some r →
        ((r.ce_ltp ≤ 0 → r.ce_margin = 0) ∧ (r.pe_ltp ≤ 0 → r.pe_margin = 0) ∧
         (0 < r.ce_ltp → r.ce_margin = r.ce_ltp * lot_size) ∧
         (0 < r.pe_ltp → r.pe_margin = r.pe_ltp * lot_size))) := by
  refine ⟨fun ltp lot => rfl, ?_⟩
  intro env today intervals symbol lot r hr
  unfold process_symbol at hr
  by_cases hltp : get_ltp (env (convert_symbol_to_fyers_format symbol)) ≤ 0
  · rw [if_pos hltp] at hr
    exact absurd hr (by simp)
  · rw [if_neg hltp] at hr
    obtain rfl : _ = r := Option.some.inj hr
    refine ⟨?_, ?_, ?_, ?_⟩
    · intro hce
      dsimp only at hce ⊢
      rw [if_neg (not_lt.mpr hce)]
    · intro hpe
      dsimp only at hpe ⊢
      rw [if_neg (not_lt.mpr hpe)]
    · intro hce
      dsimp only at hce ⊢
      rw [if_pos hce]
      rfl
    · intro hpe
      dsimp only at hpe ⊢
      rw [if_pos hpe]
      rfl

/-- Witness for C2 at a concrete environment: the CE/PE quotes fail, both
contract LTPs are 0, and the produced result carries margin 0 on both legs. -/
theorem C2_margin_price_times_lot_witness :
    process_symbol c2env ⟨2025, 1, 8⟩ get_default_intervals "NIFTY" 75 = some c2result ∧
    c2result.ce_margin = 0 ∧ c2result.pe_margin = 0 ∧ calculate_margin 7 75 = 525 := by
  have hup : get_default_intervals (pyUpper "NIFTY") = some (50 : ℚ) := by decide
  have hatm : calculate_atm_strike 100 "NIFTY" get_default_intervals = 100 := by
    simp only [calculate_atm_strike, hup]
    norm_num [pyInt]
  have hp : process_symbol c2env ⟨2025, 1, 8⟩ get_default_intervals "NIFTY" 75
      = some c2result := by
    simp only [process_symbol]
    have hconv : convert_symbol_to_fyers_format "NIFTY" = "NSE:NIFTY50-INDEX" := by decide
    rw [hconv]
    have hltp : get_ltp (c2env "NSE:NIFTY50-INDEX") = 100 := by decide
    rw [hltp]
    rw [if_neg (by norm_num : ¬(100 : ℚ) ≤ 0)]
    rw [hatm]
    have hce : get_ltp (c2env (create_option_symbol ⟨2025, 1, 8⟩ "NIFTY" 100 "CE")) = 0 := by
      decide
    have hpe : get_ltp (c2env (create_option_symbol ⟨2025, 1, 8⟩ "NIFTY" 100 "PE")) = 0 := by
      decide
    rw [hce, hpe]
    rfl
  have h := C2_margin_price_times_lot.2 c2env ⟨2025, 1, 8⟩ get_default_intervals "NIFTY" 75
    c2result hp
  refine ⟨hp, h.1 (le_refl (0 : ℚ)), h.2.1 (le_refl (0 : ℚ)), ?_⟩
  rw [C2_margin_price_times_lot.1 7 75]
  norm_num

/-- Environment where every HTTP call fails. -/
def c3env : String → Except String QuoteResponse := fun _ => Except.error "HTTP 500"

/-- Claim C3: on an HTTP/parsing error the LTP fetch returns the sentinel 0.0
and logs, the CSV loader returns the empty list (also when the file is
missing), per-symbol processing returns `None` when its underlying quote
errors, and the orchestrator's loop continues past an instrument whose
processing returned `None`. -/
theorem C3_error_sentinels :
    (∀ e : String, get_ltp (Except.error e) = 0) ∧
    (∀ (e sym : String), get_ltp_log (Except.error e) sym ≠ []) ∧
    (∀ parsed, read_symbols_from_csv false parsed = []) ∧
    (∀ (b : Bool) (e : String), read_symbols_from_csv b (Except.error e) = []) ∧
    (∀ (env : String → Except String QuoteResponse) (today : Date)
        (intervals : String → Option ℚ) (symbol : String) (lot : ℤ) (e : String),
      env (convert_symbol_to_fyers_format symbol) = Except.error e →
      process_symbol env today intervals symbol lot = none) ∧
    (∀ (env : String → Except String QuoteResponse) (today : Date)
        (intervals : String → Option ℚ) (pre post : List (String × ℤ))
        (symbol : String) (lot : ℤ),
      process_symbol env today intervals symbol lot = none →
      run_results env today intervals (pre ++ (symbol, lot) :: post)
        = run_results env today intervals (pre ++ post)) := by
  refine ⟨fun e => rfl, ?_, fun parsed => rfl, ?_, ?_, ?_⟩
  · intro e sym
    simp [get_ltp_log]
  · intro b e
    cases b <;> rfl
  · intro env today intervals symbol lot e h
    simp only [process_symbol, h]
    rw [show get_ltp (Except.error e) = (0 : ℚ) from rfl]
    rw [if_pos (le_refl (0 : ℚ))]
  · intro env today intervals pre post symbol lot h
    unfold run_results
    rw [run_results_append env today intervals pre ((symbol, lot) :: post) [],
        run_results_append env today intervals pre post []]
    rw [List.foldl_cons]
    have hstep :
        (match process_symbol env today intervals (symbol, lot).1 (symbol, lot).2 with
          | some result =>
              (pre.foldl
                (fun all_results p =>
                  match process_symbol env today intervals p.1 p.2 with
                  | some result => all_results ++ [result]
                  | none => all_results) []) ++ [result]
          | none =>
              pre.foldl
                (fun all_results p =>
                  match process_symbol env today intervals p.1 p.2 with
                  | some result => all_results ++ [result]
                  | none => all_results) [])
        = pre.foldl
            (fun all_results p =>
              match process_symbol env today intervals p.1 p.2 with
              | some result => all_results ++ [result]
              | none => all_results) [] := by
      dsimp only
      rw [h]
    rw [hstep]

/-- Witness for C3: with an always-failing HTTP layer, the quote is the
sentinel 0, and the loop result over a list containing a failing instrument
equals the result with that instrument removed. -/
theorem C3_error_sentinels_witness :
    get_ltp (Except.error "HTTP 500") = 0 ∧
    run_results c3env ⟨2025, 1, 8⟩ get_default_intervals
        ([("RELIANCE", 505)] ++ ("NIFTY", 75) :: [])
      = run_results c3env ⟨2025, 1, 8⟩ get_default_intervals ([("RELIANCE", 505)] ++ []) := by
  refine ⟨C3_error_sentinels.1 "HTTP 500", ?_⟩
  exact C3_error_sentinels.2.2.2.2.2 c3env ⟨2025, 1, 8⟩ get_default_intervals
    [("RELIANCE", 505)] [] "NIFTY" 75
    (C3_error_sentinels.2.2.2.2.1 c3env ⟨2025, 1, 8⟩ get_default_intervals "NIFTY" 75
      "HTTP 500" rfl)

/-- Claim C4 counterexample: a result whose CE margin (0) is strictly below
the threshold 20000 — so by the claim it should be reported — is not reported
by `filter_by_margin`, because the code additionally requires the margin to be
strictly positive. -/
theorem C4_margin_filter_counterexample :
    (⟨"X", 100, 100, "XCE", 0, 0, "XPE", 0, 0, 75⟩ : SymbolResult).ce_margin < 20000 ∧
    filter_by_margin 20000 [⟨"X", 100, 100, "XCE", 0, 0, "XPE", 0, 0, 75⟩] = [] := by
  constructor
  · show (0 : ℚ) < 20000
    norm_num
  · decide

/-- Claim C4 (amended): the reported subset is exactly the results with at
least one option leg whose margin is strictly positive and at most the
threshold, in input order. -/
theorem C4_margin_filter (t : ℚ) (rs : List SymbolResult) :
    filter_by_margin t rs
      = rs.filter
          (fun r =>
            decide ((0 < r.ce_margin ∧ r.ce_margin ≤ t) ∨
                    (0 < r.pe_margin ∧ r.pe_margin ≤ t))) :=
  filter_by_margin_eq_filter t rs

/-- Claim C10: `filter_by_margin` is idempotent and its output is an
order-preserving subsequence of its input. -/
theorem C10_filter_idempotent_sublist (t : ℚ) (rs : List SymbolResult) :
    filter_by_margin t (filter_by_margin t rs) = filter_by_margin t rs ∧
    (filter_by_margin t rs).Sublist rs := by
  constructor
  · rw [filter_by_margin_eq_filter, filter_by_margin_eq_filter, List.filter_filter]
    simp
  · rw [filter_by_margin_eq_filter]
    exact List.filter_sublist _

/-- When the symbol has a loaded positive integer interval `n`, the optimized
ATM strike is exactly `⌈ltp / n⌉ * n`. -/
theorem atm_v2_eq (ltp : ℚ) (symbol : String) (intervals : String → Option ℚ)
    (n : ℕ) (hn : 0 < n) (hi : intervals (pyUpper symbol) = some (n : ℚ)) :
    ((calculate_atm_strike ltp symbol intervals : ℤ) : ℚ)
      = (⌈ltp / (n : ℚ)⌉ : ℚ) * (n : ℚ) := by
  have hq : (0 : ℚ) < (n : ℚ) := by exact_mod_cast hn
  simp only [calculate_atm_strike, hi]
  rw [if_neg (ne_of_gt hq)]
  have hcast : (⌈ltp / (n : ℚ)⌉ : ℚ) * (n : ℚ) = ((⌈ltp / (n : ℚ)⌉ * (n : ℤ) : ℤ) : ℚ) := by
    push_cast
    ring
  rw [hcast, pyInt_intCast]

/-- Claim C9: with a positive LTP and a positive integer strike interval `n`,
the optimized ATM strike calculator returns the least multiple of `n` at or
above the LTP (in particular the strike is never below the LTP). -/
theorem C9_atm_ceiling (ltp : ℚ) (n : ℕ) (symbol : String)
    (intervals : String → Option ℚ) (h1 : 0 < ltp) (h2 : 0 < n)
    (h3 : intervals (pyUpper symbol) = some (n : ℚ)) :
    ((calculate_atm_strike ltp symbol intervals : ℤ) : ℚ)
        = (⌈ltp / (n : ℚ)⌉ : ℚ) * (n : ℚ) ∧
    ltp ≤ ((calculate_atm_strike ltp symbol intervals : ℤ) : ℚ) ∧
    (∀ m : ℤ, ltp ≤ (m : ℚ) * (n : ℚ) →
      ((calculate_atm_strike ltp symbol intervals : ℤ) : ℚ) ≤ (m : ℚ) * (n : ℚ)) := by
  have hq : (0 : ℚ) < (n : ℚ) := by exact_mod_cast h2
  have he := atm_v2_eq ltp symbol intervals n h2 h3
  refine ⟨he, ?_, ?_⟩
  · rw [he]
    have h4 : ltp / (n : ℚ) ≤ (⌈ltp / (n : ℚ)⌉ : ℚ) := Int.le_ceil _
    have h5 := mul_le_mul_of_nonneg_right h4 hq.le
    rwa [div_mul_cancel₀ _ (ne_of_gt hq)] at h5
  · intro m hm
    rw [he]
    have h4 : ltp / (n : ℚ) ≤ (m : ℚ) := (div_le_iff₀ hq).mpr hm
    have h5 : ⌈ltp / (n : ℚ)⌉ ≤ m := Int.ceil_le.mpr h4
    have h6 : (⌈ltp / (n : ℚ)⌉ : ℚ) ≤ (m : ℚ) := by exact_mod_cast h5
    exact mul_le_mul_of_nonneg_right h6 hq.le

/-- Witness for C9 at LTP 101 and NIFTY's default interval 50: the computed
strike is the ceiling multiple and lies at or above the LTP. -/
theorem C9_atm_ceiling_witness :
    (0 : ℚ) < 101 ∧ get_default_intervals (pyUpper "NIFTY") = some ((50 : ℕ) : ℚ) ∧
    ((calculate_atm_strike 101 "NIFTY" get_default_intervals : ℤ) : ℚ)
        = (⌈(101 : ℚ) / ((50 : ℕ) : ℚ)⌉ : ℚ) * ((50 : ℕ) : ℚ) ∧
    (101 : ℚ) ≤ ((calculate_atm_strike 101 "NIFTY" get_default_intervals : ℤ) : ℚ) := by
  have hd : get_default_intervals (pyUpper "NIFTY") = some ((50 : ℕ) : ℚ) := by
    rw [show ((50 : ℕ) : ℚ) = (50 : ℚ) by norm_num]
    decide
  have h := C9_atm_ceiling 101 50 "NIFTY" get_default_intervals (by norm_num) (by norm_num) hd
  exact ⟨by norm_num, hd, h.1, h.2.1⟩

/-- Claim C6: the strike-interval loader falls back to the static defaults
when the file is missing or unreadable; the defaults are the six documented
entries; and on success the built dictionary assigns to each symbol the
minimum step value among that symbol's rows. -/
theorem C6_interval_loader :
    (∀ parsed, load_strike_intervals_from_file false parsed = get_default_intervals) ∧
    (∀ e, load_strike_intervals_from_file true (Except.error e) = get_default_intervals) ∧
    (get_default_intervals "NIFTY" = some 50 ∧
     get_default_intervals "BANKNIFTY" = some 100 ∧
     get_default_intervals "FINNIFTY" = some 50 ∧
     get_default_intervals "MIDCPNIFTY" = some 25 ∧
     get_default_intervals "NIFTY NEXT 50" = some 100 ∧
     get_default_intervals "SENSEX" = some 100) ∧
    (∀ rows, load_strike_intervals_from_file true (Except.ok rows)
        = build_strike_intervals rows) ∧
    (∀ rows s, build_strike_intervals rows s = none ↔ ∀ g, (s, g) ∉ rows) ∧
    (∀ rows s v, build_strike_intervals rows s = some v →
      (s, v) ∈ rows ∧ ∀ g, (s, g) ∈ rows → v ≤ g) := by
  refine ⟨fun parsed => rfl, fun e => rfl, ⟨rfl, rfl, rfl, rfl, rfl, rfl⟩,
    fun rows => rfl, ?_, ?_⟩
  · intro rows s
    unfold build_strike_intervals
    rw [(build_intervals_aux rows (fun _ => none) s).1]
    simp
  · intro rows s v hv
    unfold build_strike_intervals at hv
    obtain ⟨hd, hbound, -⟩ := (build_intervals_aux rows (fun _ => none) s).2 v hv
    refine ⟨?_, hbound⟩
    rcases hd with h | h
    · exact absurd h (by simp)
    · exact h

/-- Witness for C6 on a file with two rows for symbol `A`: the built map keeps
the minimum 2, which occurs among the rows and bounds every `A`-gap. -/
theorem C6_interval_loader_witness :
    (("A", (2 : ℚ)) ∈ ([("A", 3), ("A", 2), ("B", 5)] : List (String × ℚ))) ∧
    (∀ g, ("A", g) ∈ ([("A", 3), ("A", 2), ("B", 5)] : List (String × ℚ)) → (2 : ℚ) ≤ g) :=
  C6_interval_loader.2.2.2.2.2 [("A", 3), ("A", 2), ("B", 5)] "A" 2 (by decide)

/-- Claim C7: the quote-lookup formatter maps the six known index names to
their fixed identifiers and everything else to `NSE:<SYMBOL>-EQ`; the
option-contract identifier is `NSE:` ++ mapped underlying ++ expiry code ++
strike ++ option type (the mapping renames only `NIFTY NEXT 50`). -/
theorem C7_symbol_formatter :
    (convert_symbol_to_fyers_format "NIFTY" = "NSE:NIFTY50-INDEX" ∧
     convert_symbol_to_fyers_format "BANKNIFTY" = "NSE:NIFTYBANK-INDEX" ∧
     convert_symbol_to_fyers_format "FINNIFTY" = "NSE:FINNIFTY-INDEX" ∧
     convert_symbol_to_fyers_format "MIDCPNIFTY" = "NSE:MIDCPNIFTY-INDEX" ∧
     convert_symbol_to_fyers_format "NIFTY NEXT 50" = "NSE:NIFTYNXT50-INDEX" ∧
     convert_symbol_to_fyers_format "SENSEX" = "BSE:SENSEX-INDEX") ∧
    (∀ s : String,
      pyUpper s ∉ (["NIFTY", "BANKNIFTY", "FINNIFTY", "MIDCPNIFTY",
                    "NIFTY NEXT 50", "SENSEX"] : List String) →
      convert_symbol_to_fyers_format s = "NSE:" ++ pyUpper s ++ "-EQ") ∧
    (∀ (today : Date) (strike : ℤ) (ot : String) (base : String),
      pyUpper base = "NIFTY NEXT 50" →
      create_option_symbol today base strike ot
        = "NSE:" ++ "NIFTYNXT50" ++ get_expiry_code today base ++ toString strike ++ ot) ∧
    (∀ (today : Date) (strike : ℤ) (ot : String) (base : String),
      pyUpper base ≠ "NIFTY NEXT 50" →
      create_option_symbol today base strike ot
        = "NSE:" ++ pyUpper base ++ get_expiry_code today base ++ toString strike ++ ot) := by
  refine ⟨⟨by decide, by decide, by decide, by decide, by decide, by decide⟩, ?_, ?_, ?_⟩
  · intro s hmem
    simp only [List.mem_cons, List.not_mem_nil, or_false, not_or] at hmem
    obtain ⟨h1, h2, h3, h4, h5, h6⟩ := hmem
    simp only [convert_symbol_to_fyers_format]
    rw [if_neg h1, if_neg h2, if_neg h3, if_neg h4, if_neg h5, if_neg h6]
  · intro today strike ot base hb
    simp only [create_option_symbol]
    rw [hb]
    rw [if_neg (by decide : ¬("NIFTY NEXT 50" : String) = "NIFTY"),
        if_neg (by decide : ¬("NIFTY NEXT 50" : String) = "BANKNIFTY"),
        if_neg (by decide : ¬("NIFTY NEXT 50" : String) = "FINNIFTY"),
        if_neg (by decide : ¬("NIFTY NEXT 50" : String) = "MIDCPNIFTY"),
        if_pos rfl]
  · intro today strike ot base hb
    simp only [create_option_symbol]
    by_cases h1 : pyUpper base = "NIFTY"
    · rw [if_pos h1, h1]
    · rw [if_neg h1]
      by_cases h2 : pyUpper base = "BANKNIFTY"
      · rw [if_pos h2, h2]
      · rw [if_neg h2]
        by_cases h3 : pyUpper base = "FINNIFTY"
        · rw [if_pos h3, h3]
        · rw [if_neg h3]
          by_cases h4 : pyUpper base = "MIDCPNIFTY"
          · rw [if_pos h4, h4]
          · rw [if_neg h4, if_neg hb]

/-- Witness for C7: a stock symbol outside the index table, and a concrete
option symbol for NIFTY. -/
theorem C7_symbol_formatter_witness :
    convert_symbol_to_fyers_format "Reliance" = "NSE:" ++ pyUpper "Reliance" ++ "-EQ" ∧
    create_option_symbol ⟨2025, 1, 8⟩ "NIFTY" 100 "CE"
      = "NSE:" ++ pyUpper "NIFTY" ++ get_expiry_code ⟨2025, 1, 8⟩ "NIFTY"
          ++ toString (100 : ℤ) ++ "CE" := by
  constructor
  · exact C7_symbol_formatter.2.1 "Reliance" (by decide)
  · exact C7_symbol_formatter.2.2.2 ⟨2025, 1, 8⟩ 100 "CE" "NIFTY" (by decide)

/-- Claim C1 counterexample: at LTP 101 with NIFTY's interval 50, the
optimized calculator returns 150 (the ceiling multiple), but 100 is a strictly
closer valid strike — so the ATM strike is not the nearest one. -/
theorem C1_atm_nearest_counterexample :
    calculate_atm_strike 101 "NIFTY" get_default_intervals = 150 ∧
    ¬ NearestMult 50 101 (calculate_atm_strike 101 "NIFTY" get_default_intervals) := by
  have hup : get_default_intervals (pyUpper "NIFTY") = some (50 : ℚ) := by decide
  have hc : (⌈(101 : ℚ) / 50⌉ : ℤ) = 3 := Int.ceil_eq_iff.mpr ⟨by norm_num, by norm_num⟩
  have h150 : calculate_atm_strike 101 "NIFTY" get_default_intervals = 150 := by
    simp only [calculate_atm_strike, hup]
    norm_num [pyInt, hc]
  refine ⟨h150, ?_⟩
  rintro ⟨-, hmin⟩
  have h2 := hmin 2
  rw [h150] at h2
  have e1 : |(101 : ℚ) - ((150 : ℤ) : ℚ)| = 49 := by
    rw [show (101 : ℚ) - ((150 : ℤ) : ℚ) = -(49 : ℚ) by norm_num, abs_neg,
        abs_of_nonneg (by norm_num : (0 : ℚ) ≤ 49)]
  have e2 : |(101 : ℚ) - ((2 : ℤ) : ℚ) * 50| = 1 := by
    rw [show (101 : ℚ) - ((2 : ℤ) : ℚ) * 50 = (1 : ℚ) by norm_num,
        abs_of_nonneg (by norm_num : (0 : ℚ) ≤ 1)]
  rw [e1, e2] at h2
  norm_num at h2

/-- Claim C1 (amended): the original calculator (`main.py`) returns the valid
strike nearest to the LTP — a minimizer of the absolute distance among the
multiples of the effective interval (50 for NIFTY, 100 for BANKNIFTY,
otherwise the loaded interval, default 50, assumed a positive integer) — while
the optimized calculator (`main_v2.py`) instead returns the ceiling multiple
`⌈ltp / n⌉ * n`. -/
theorem C1_atm_nearest (ltp : ℚ) (hl : 0 ≤ ltp) (intervals : String → Option ℚ) :
    NearestMult 50 ltp (calculate_atm_strike_py ltp "NIFTY" intervals) ∧
    NearestMult 100 ltp (calculate_atm_strike_py ltp "BANKNIFTY" intervals) ∧
    (∀ (symbol : String) (n : ℕ), symbol ≠ "NIFTY" → symbol ≠ "BANKNIFTY" → 0 < n →
      (intervals symbol).getD 50 = (n : ℚ) →
      NearestMult (n : ℚ) ltp (calculate_atm_strike_py ltp symbol intervals)) ∧
    (∀ (symbol : String) (n : ℕ), 0 < n → intervals (pyUpper symbol) = some (n : ℚ) →
      ((calculate_atm_strike ltp symbol intervals : ℤ) : ℚ)
        = (⌈ltp / (n : ℚ)⌉ : ℚ) * (n : ℚ)) := by
  refine ⟨?_, ?_, ?_, fun symbol n hn hi => atm_v2_eq ltp symbol intervals n hn hi⟩
  · have h := nearest_halfround 50 25 50 (by norm_num) (by norm_num) (by norm_num) ltp hl
    show NearestMult 50 ltp (pyInt (ltp - fmod ltp 50 + if 25 ≤ fmod ltp 50 then 50 else 0))
    exact h
  · have h := nearest_halfround 100 50 100 (by norm_num) (by norm_num) (by norm_num) ltp hl
    show NearestMult 100 ltp
      (pyInt (ltp - fmod ltp 100 + if 50 ≤ fmod ltp 100 then 100 else 0))
    exact h
  · intro symbol n h1 h2 hn hint
    have hq : (0 : ℚ) < (n : ℚ) := by exact_mod_cast hn
    have h := nearest_floor_ceil (n : ℚ) (n : ℤ) (by norm_cast) hq ltp
    simp only [calculate_atm_strike_py]
    rw [if_neg h1, if_neg h2, hint]
    exact h

/-- Witness for C1 at LTP 101: the original NIFTY branch produces the
distance-minimizing strike. -/
theorem C1_atm_nearest_witness :
    (0 : ℚ) ≤ 101 ∧
    NearestMult 50 101 (calculate_atm_strike_py 101 "NIFTY" get_default_intervals) :=
  ⟨by norm_num, (C1_atm_nearest 101 (by norm_num) get_default_intervals).1⟩

/-- A monthly code never coincides with a weekly code. -/
theorem monthly_ne_weekly_str (y ma mc dd : ℕ) (hma : ma < 13) (hmc : mc < 13)
    (hdd : dd < 32) :
    pad2 (y % 100) ++ monthAbbrev ma ≠ pad2 (y % 100) ++ monthCode mc ++ pad2 dd := by
  intro h
  rw [String.append_assoc] at h
  exact monthAbbrev_ne_weekly ma hma mc hmc dd hdd (string_append_left_cancel _ h)

/-- Claim C5 counterexample: on 2024-12-27 the next Thursday is 2025-01-02, so
the claimed weekly code (month code of the next Thursday) would be `24102`,
but `main.py` builds `24D02` from the *current* month. -/
theorem C5_expiry_code_counterexample :
    get_expiry_code_py ⟨2024, 12, 27⟩ "NIFTY" = "24D02" ∧
    pad2 ((2024 : ℕ) % 100) ++ monthCode (nextThursday ⟨2024, 12, 27⟩).month
        ++ pad2 (nextThursday ⟨2024, 12, 27⟩).day = "24102" ∧
    ¬ isLastThursdayOfItsMonth (nextThursday ⟨2024, 12, 27⟩) ∧
    get_expiry_code_py ⟨2024, 12, 27⟩ "NIFTY"
      ≠ pad2 ((2024 : ℕ) % 100) ++ monthCode (nextThursday ⟨2024, 12, 27⟩).month
          ++ pad2 (nextThursday ⟨2024, 12, 27⟩).day :=
  ⟨by decide, by decide, by decide, by decide⟩

/-- Claim C5 (amended): for the weekly-expiry symbols, the expiry code is the
monthly code exactly when the next Thursday on or after the date is the last
Thursday of its month; otherwise the optimized calculator (weekly symbol:
NIFTY) builds the weekly code from the *next Thursday's* month and day, while
the original calculator (weekly symbols: NIFTY, BANKNIFTY, and STOCK — the
path main.py uses for every non-index underlying) uses the *current date's*
month code with the next Thursday's day. -/
theorem C5_expiry_code (d : Date) (hv : d.Valid) :
    (get_expiry_code d "NIFTY" = monthlyCode d ↔
      isLastThursdayOfItsMonth (nextThursday d)) ∧
    (¬ isLastThursdayOfItsMonth (nextThursday d) →
      get_expiry_code d "NIFTY"
        = pad2 (d.year % 100) ++ monthCode (nextThursday d).month
            ++ pad2 (nextThursday d).day) ∧
    (get_expiry_code_py d "NIFTY" = monthlyCode d ↔
      isLastThursdayOfItsMonth (nextThursday d)) ∧
    (get_expiry_code_py d "BANKNIFTY" = monthlyCode d ↔
      isLastThursdayOfItsMonth (nextThursday d)) ∧
    (¬ isLastThursdayOfItsMonth (nextThursday d) →
      get_expiry_code_py d "NIFTY"
        = pad2 (d.year % 100) ++ monthCode d.month ++ pad2 (nextThursday d).day) ∧
    (¬ isLastThursdayOfItsMonth (nextThursday d) →
      get_expiry_code_py d "BANKNIFTY"
        = pad2 (d.year % 100) ++ monthCode d.month ++ pad2 (nextThursday d).day) ∧
    (get_expiry_code_py d "STOCK" = monthlyCode d ↔
      isLastThursdayOfItsMonth (nextThursday d)) ∧
    (¬ isLastThursdayOfItsMonth (nextThursday d) →
      get_expiry_code_py d "STOCK"
        = pad2 (d.year % 100) ++ monthCode d.month ++ pad2 (nextThursday d).day) := by
  have hcond := cond_code_iff_spec d hv
  have hvnt := nextThursday_valid d hv
  obtain ⟨-, -, hdm, -, -⟩ := hv
  obtain ⟨-, -, hntm, -, hntd⟩ := hvnt
  have hd31 := daysInMonth_le (nextThursday d).year (nextThursday d).month
  have hne1 : monthlyCode d
      ≠ pad2 (d.year % 100) ++ monthCode (nextThursday d).month
          ++ pad2 (nextThursday d).day := by
    unfold monthlyCode
    exact monthly_ne_weekly_str d.year d.month (nextThursday d).month (nextThursday d).day
      (by omega) (by omega) (by omega)
  have hne2 : monthlyCode d
      ≠ pad2 (d.year % 100) ++ monthCode d.month ++ pad2 (nextThursday d).day := by
    unfold monthlyCode
    exact monthly_ne_weekly_str d.year d.month d.month (nextThursday d).day
      (by omega) (by omega) (by omega)
  have hv2eq : get_expiry_code d "NIFTY" =
      if nextThursday d = lastThursdayOfMonth d.year d.month then monthlyCode d
      else pad2 (d.year % 100) ++ monthCode (nextThursday d).month
            ++ pad2 (nextThursday d).day := by
    simp only [get_expiry_code, monthlyCode]
    rw [if_pos (by decide : pyUpper "NIFTY"
          ∈ (["NIFTY", "BANKNIFTY", "FINNIFTY", "MIDCPNIFTY"] : List String))]
    by_cases hcc : nextThursday d = lastThursdayOfMonth d.year d.month
    · rw [if_pos hcc, if_pos hcc]
    · rw [if_neg hcc, if_neg hcc, if_pos (by decide : pyUpper "NIFTY" = "NIFTY")]
  have hpyN : get_expiry_code_py d "NIFTY" =
      if nextThursday d = lastThursdayOfMonth d.year d.month then monthlyCode d
      else pad2 (d.year % 100) ++ monthCode d.month ++ pad2 (nextThursday d).day := by
    simp only [get_expiry_code_py, monthlyCode]
    simp
  have hpyB : get_expiry_code_py d "BANKNIFTY" =
      if nextThursday d = lastThursdayOfMonth d.year d.month then monthlyCode d
      else pad2 (d.year % 100) ++ monthCode d.month ++ pad2 (nextThursday d).day := by
    simp only [get_expiry_code_py, monthlyCode]
    simp
  have hpyS : get_expiry_code_py d "STOCK" =
      if nextThursday d = lastThursdayOfMonth d.year d.month then monthlyCode d
      else pad2 (d.year % 100) ++ monthCode d.month ++ pad2 (nextThursday d).day := by
    simp only [get_expiry_code_py, monthlyCode]
    simp
  have main : ∀ w : String, monthlyCode d ≠ w →
      ((if nextThursday d = lastThursdayOfMonth d.year d.month then monthlyCode d else w)
          = monthlyCode d ↔ isLastThursdayOfItsMonth (nextThursday d)) := by
    intro w hw
    by_cases hcc : nextThursday d = lastThursdayOfMonth d.year d.month
    · rw [if_pos hcc]
      exact iff_of_true rfl (hcond.mp hcc)
    · rw [if_neg hcc]
      exact iff_of_false (fun hh => hw hh.symm) (fun hs => hcc (hcond.mpr hs))
  refine ⟨?_, ?_, ?_, ?_, ?_, ?_, ?_, ?_⟩
  · rw [hv2eq]
    exact main _ hne1
  · intro hns
    rw [hv2eq, if_neg (fun hcc => hns (hcond.mp hcc))]
  · rw [hpyN]
    exact main _ hne2
  · rw [hpyB]
    exact main _ hne2
  · intro hns
    rw [hpyN, if_neg (fun hcc => hns (hcond.mp hcc))]
  · intro hns
    rw [hpyB, if_neg (fun hcc => hns (hcond.mp hcc))]
  · rw [hpyS]
    exact main _ hne2
  · intro hns
    rw [hpyS, if_neg (fun hcc => hns (hcond.mp hcc))]

/-- Witness for C5 on 2025-01-08 (a valid date in a weekly week). -/
theorem C5_expiry_code_witness :
    Date.Valid ⟨2025, 1, 8⟩ ∧
    (get_expiry_code ⟨2025, 1, 8⟩ "NIFTY" = monthlyCode ⟨2025, 1, 8⟩ ↔
      isLastThursdayOfItsMonth (nextThursday ⟨2025, 1, 8⟩)) :=
  ⟨by decide, (C5_expiry_code ⟨2025, 1, 8⟩ (by decide)).1⟩

/-- Claim C8 counterexample: on 2025-01-08 (a weekly week), `main.py` gives
BANKNIFTY the weekly code `25109` while `main_v2.py` gives the monthly code
`25JAN`. -/
theorem C8_expiry_equiv_counterexample :
    get_expiry_code_py ⟨2025, 1, 8⟩ "BANKNIFTY" = "25109" ∧
    get_expiry_code ⟨2025, 1, 8⟩ "BANKNIFTY" = "25JAN" ∧
    get_expiry_code_py ⟨2025, 1, 8⟩ "BANKNIFTY"
      ≠ get_expiry_code ⟨2025, 1, 8⟩ "BANKNIFTY" :=
  ⟨by decide, by decide, by decide⟩

/-- Claim C8 (amended): the two expiry-code calculators agree on every date
and symbol except, on weekly weeks, for the exact symbols `BANKNIFTY` and
`STOCK`, for case variants whose uppercase is `NIFTY`, and for `NIFTY` itself
when the next Thursday falls outside the current month. -/
theorem C8_expiry_equiv (d : Date) (s : String)
    (h : nextThursday d = lastThursdayOfMonth d.year d.month ∨
         (s ≠ "BANKNIFTY" ∧ s ≠ "STOCK" ∧
           (pyUpper s = "NIFTY" → s = "NIFTY" ∧ (nextThursday d).month = d.month))) :
    get_expiry_code_py d s = get_expiry_code d s := by
  by_cases hc : nextThursday d = lastThursdayOfMonth d.year d.month
  · simp only [get_expiry_code_py, get_expiry_code]
    rw [if_pos hc, if_pos hc, ite_self, ite_self]
  · rcases h with h | ⟨hb, hst, hn⟩
    · exact absurd h hc
    · by_cases hU : pyUpper s = "NIFTY"
      · obtain ⟨rfl, hmonth⟩ := hn hU
        simp only [get_expiry_code_py, get_expiry_code]
        rw [if_pos (show ("NIFTY" : String) = "BANKNIFTY" ∨ ("NIFTY" : String) = "STOCK" ∨ True
              from Or.inr (Or.inr trivial))]
        rw [if_pos (by decide : pyUpper "NIFTY"
              ∈ (["NIFTY", "BANKNIFTY", "FINNIFTY", "MIDCPNIFTY"] : List String))]
        rw [if_neg hc, if_neg hc, if_pos (by decide : pyUpper "NIFTY" = "NIFTY"), hmonth]
      · have hnN : s ≠ "NIFTY" := by
          intro hh
          rw [hh] at hU
          exact hU (by decide)
        simp only [get_expiry_code_py, get_expiry_code]
        rw [if_neg (by simp [hb, hst, hnN] :
              ¬(s = "BANKNIFTY" ∨ s = "STOCK" ∨ s = "NIFTY"))]
        by_cases hmem : pyUpper s
            ∈ (["NIFTY", "BANKNIFTY", "FINNIFTY", "MIDCPNIFTY"] : List String)
        · rw [if_pos hmem, if_neg hc, if_neg hU]
        · rw [if_neg hmem]

/-- Witness for C8: a plain stock symbol, for which both calculators give the
monthly code. -/
theorem C8_expiry_equiv_witness :
    get_expiry_code_py ⟨2025, 1, 8⟩ "RELIANCE" = get_expiry_code ⟨2025, 1, 8⟩ "RELIANCE" :=
  C8_expiry_equiv ⟨2025, 1, 8⟩ "RELIANCE"
    (Or.inr ⟨by decide, by decide, fun hU => absurd hU (by decide)⟩)

end Fyers

